import Mathlib

/-!
Verification of the caching / quota / deduplication engine of the
Summarizeit repository.

The development shallowly embeds the TypeScript sources:

* `src/app/utils/rate-limit.ts` (request deduplication cache):
  `hashText`, `getCachedSummary`, `getInflightRequest`,
  `registerInflightRequest`, `cacheResponse`.
* `src/app/utils/user-rate-limit.ts` (per-user quota), in both of its
  revisions: the current one built on the generic `CacheManager`
  (periodic disk sync), and the legacy one doing direct file I/O on
  every call (`loadQuotas` / `saveQuotas`).
* `src/app/utils/cache-manager.ts`: the generic in-memory cache with a
  dirty flag and periodic flush.
* the Telegram history module (`addSummaryToHistory`).

JavaScript `Map`s are embedded as association lists; `Date.now()` is an
explicit `now : Int` parameter (epoch milliseconds); promises are
identifiers with a fixed outcome function; file-system effects are
recorded as explicit `StoreEv` events, and fallible file-system
primitives are passed in as `Except` values.
-/

namespace Summarizeit

/-- A store-level I/O event: a read of, or a write to, the durable
backing store (the JSON file in the OS temp directory). -/
inductive StoreEv where
  | read : StoreEv
  | write : StoreEv
deriving Repr, DecidableEq

/-- Lookup in an association list, mirroring `Map.get`. -/
def mapFind? (m : List (String × α)) (k : String) : Option α :=
  (m.find? (fun p => p.1 == k)).map (fun p => p.2)

/-- Overwrite-or-insert, mirroring `Map.set` (the position of the entry
in the list is irrelevant to every property proved below). -/
def mapSet (m : List (String × α)) (k : String) (v : α) : List (String × α) :=
  (k, v) :: m.filter (fun p => p.1 != k)

/-- Removal, mirroring `Map.delete`. -/
def mapDel (m : List (String × α)) (k : String) : List (String × α) :=
  m.filter (fun p => p.1 != k)

/-! ### Request deduplication cache (`rate-limit.ts`, dedup revision)

`hashText` is SHA-256 over the raw input; it is embedded as an abstract
function parameter `hash : String → String`.  The spec's "distinct
inputs produce distinct fingerprints with overwhelming probability" is
rendered as an injectivity hypothesis where a theorem needs it. -/

/-- The payload cached per fingerprint (`CachedResponse` in the source). -/
structure CachedResponse where
  summary : String
  keyPoints : List String
  timestamp : Int
deriving Repr, DecidableEq

/-- Cache TTL: 1 hour, `CACHE_TTL_MS` in the source. -/
def CACHE_TTL_MS : Int := 60 * 60 * 1000

/-- The resolved-response cache (`responseCache` in the source). -/
abbrev RespCache := List (String × CachedResponse)

/-- The in-flight cache (`requestCache`); promises are identifiers. -/
abbrev ReqCache := List (String × Nat)

/-- State of the deduplication module: both module-level maps. -/
structure DedupState where
  requestCache : ReqCache
  responseCache : RespCache
deriving Repr, DecidableEq

/-- Embedding of `getCachedSummary(text)`: looks the fingerprint up in
the response cache; an entry older than the TTL is deleted and treated
as absent.  Returns the result and the possibly-updated cache. -/
def getCachedSummary (hash : String → String) (now : Int) (rc : RespCache)
    (text : String) : Option CachedResponse × RespCache :=
  let h := hash text
  match mapFind? rc h with
  | none => (none, rc)
  | some cached =>
      if now - cached.timestamp > CACHE_TTL_MS then (none, mapDel rc h)
      else (some cached, rc)

/-- Embedding of `cacheResponse(text, response)`. -/
def cacheResponse (hash : String → String) (text : String)
    (response : CachedResponse) (rc : RespCache) : RespCache :=
  mapSet rc (hash text) response

/-- Embedding of `getInflightRequest(text)`. -/
def getInflightRequest (hash : String → String) (text : String)
    (s : DedupState) : Option Nat :=
  mapFind? s.requestCache (hash text)

/-- Embedding of `registerInflightRequest(text, promise)`: stores the
promise in the in-flight map.  The attached continuations are embedded
separately as `settleInflight`. -/
def registerInflightRequest (hash : String → String) (text : String)
    (p : Nat) (s : DedupState) : DedupState :=
  { s with requestCache := mapSet s.requestCache (hash text) p }

/-- Embedding of the continuations `registerInflightRequest` attaches to
the registered promise: on fulfillment the result is moved to the
response cache (`.then`), and in both cases the in-flight entry is
deleted (`.finally`). -/
def settleInflight (hash : String → String) (text : String)
    (outcome : Except String CachedResponse) (s : DedupState) : DedupState :=
  let h := hash text
  let s1 := match outcome with
    | .ok result => { s with responseCache := mapSet s.responseCache h result }
    | .error _ => s
  { s1 with requestCache := mapDel s1.requestCache h }

/-! ### Generic cache manager (`cache-manager.ts`)

The class `CacheManager<T>` is embedded as a state type `CacheState`
together with one function per method.  Each function also returns the
list of durable-store events it performs, so that the frame claims
about store I/O are statable. -/

/-- One in-memory entry, `CacheEntry<T>` in the source. -/
structure CacheEntry (α : Type) where
  data : α
  lastModified : Int
deriving Repr, DecidableEq

/-- The in-memory state of one `CacheManager` instance: the map plus
the dirty flag. -/
structure CacheState (α : Type) where
  table : List (String × CacheEntry α)
  dirty : Bool
deriving Repr, DecidableEq

/-- Embedding of `CacheManager.get`. -/
def cmGet (s : CacheState α) (k : String) : Option α × List StoreEv :=
  ((mapFind? s.table k).map (fun e => e.data), [])

/-- Embedding of `CacheManager.set`: updates the in-memory entry with
the current time as `lastModified`, and marks the table dirty. -/
def cmSet (now : Int) (s : CacheState α) (k : String) (v : α) :
    CacheState α × List StoreEv :=
  ({ table := mapSet s.table k { data := v, lastModified := now }, dirty := true }, [])

/-- Embedding of `CacheManager.delete`. -/
def cmDelete (s : CacheState α) (k : String) : CacheState α × List StoreEv :=
  ({ table := mapDel s.table k, dirty := true }, [])

/-- Embedding of `CacheManager.getAll`. -/
def cmGetAll (s : CacheState α) : List (String × α) × List StoreEv :=
  (s.table.map (fun p => (p.1, p.2.data)), [])

/-- Embedding of `CacheManager.loadFromDisk`: the read (existence
check, read, parse) is an opaque `Except` parameter; any thrown error
is caught and logged, leaving the state unchanged. -/
def cmLoadFromDisk (disk : Except String (List (String × α))) (now : Int)
    (s : CacheState α) : CacheState α × List StoreEv :=
  match disk with
  | .ok records =>
      ({ s with table :=
          records.foldl (fun t p => mapSet t p.1 { data := p.2, lastModified := now }) s.table },
        [.read])
  | .error _ => (s, [.read])

/-- Embedding of `CacheManager.saveToDisk`: a no-op when clean; on a
write failure the error is caught and the dirty flag stays set so the
next interval retries. -/
def cmSaveToDisk (writeOk : Bool) (s : CacheState α) : CacheState α × List StoreEv :=
  if s.dirty = false then (s, [])
  else if writeOk then ({ s with dirty := false }, [.write])
  else (s, [.write])

/-- Embedding of `CacheManager.clear`: empties the table, marks dirty,
and immediately flushes. -/
def cmClear (writeOk : Bool) (_s : CacheState α) : CacheState α × List StoreEv :=
  let s1 : CacheState α := { table := [], dirty := true }
  cmSaveToDisk writeOk s1

/-! ### Per-user quota, current revision (`user-rate-limit.ts` on the
cache manager) -/

/-- `UserQuotaRecord` in the source. -/
structure UserQuotaRecord where
  userId : String
  count : Int
  resetAt : Int
deriving Repr, DecidableEq

/-- The record returned by `checkUserQuota` (the `resetAtDate` ISO
string, a pure formatting of `resetAt`, is omitted). -/
structure QuotaCheckResult where
  allowed : Bool
  remaining : Int
  resetAt : Int
deriving Repr, DecidableEq

/-- The record returned by `getUserQuotaInfo`. -/
structure QuotaInfo where
  used : Int
  remaining : Int
  resetAt : Int
deriving Repr, DecidableEq

/-- `DAILY_LIMIT` in the source. -/
def DAILY_LIMIT : Int := 10

/-- `DAY_MS` in the source: 24 hours in milliseconds. -/
def DAY_MS : Int := 24 * 60 * 60 * 1000

/-- Embedding of the current `checkUserQuota(userId)`: reads the record
from the quotas cache, starts a fresh window when the record is absent
or expired, and consumes one unit when the remaining quota is positive.
The JavaScript aliasing (`record.count += 1` mutating the object held
by the map, followed by `cache.set`) is rendered as a functional
overwrite of the entry. -/
def checkUserQuota (now : Int) (s : CacheState UserQuotaRecord) (userId : String) :
    QuotaCheckResult × CacheState UserQuotaRecord × List StoreEv :=
  let g := cmGet s userId
  let step1 : UserQuotaRecord × CacheState UserQuotaRecord × List StoreEv :=
    match g.1 with
    | none =>
        let fresh : UserQuotaRecord := { userId := userId, count := 0, resetAt := now + DAY_MS }
        let s1 := cmSet now s userId fresh
        (fresh, s1.1, g.2 ++ s1.2)
    | some record =>
        if now ≥ record.resetAt then
          let fresh : UserQuotaRecord := { userId := userId, count := 0, resetAt := now + DAY_MS }
          let s1 := cmSet now s userId fresh
          (fresh, s1.1, g.2 ++ s1.2)
        else (record, s, g.2)
  let record := step1.1
  let remaining : Int := max 0 (DAILY_LIMIT - record.count)
  let allowed := remaining > 0
  if allowed then
    let record2 : UserQuotaRecord := { record with count := record.count + 1 }
    let s2 := cmSet now step1.2.1 userId record2
    ({ allowed := true, remaining := max 0 (remaining - 1), resetAt := record2.resetAt },
      s2.1, step1.2.2 ++ s2.2)
  else
    ({ allowed := false, remaining := max 0 (remaining - 1), resetAt := record.resetAt },
      step1.2.1, step1.2.2)

/-- Embedding of the current `getUserQuotaInfo(userId)`: a pure read. -/
def getUserQuotaInfo (now : Int) (s : CacheState UserQuotaRecord) (userId : String) :
    QuotaInfo × CacheState UserQuotaRecord × List StoreEv :=
  let g := cmGet s userId
  match g.1 with
  | none => ({ used := 0, remaining := DAILY_LIMIT, resetAt := now + DAY_MS }, s, g.2)
  | some record =>
      if now ≥ record.resetAt then
        ({ used := 0, remaining := DAILY_LIMIT, resetAt := now + DAY_MS }, s, g.2)
      else
        ({ used := record.count, remaining := max 0 (DAILY_LIMIT - record.count),
           resetAt := record.resetAt }, s, g.2)

/-- Embedding of the current `resetUserQuota(userId)`. -/
def resetUserQuota (s : CacheState UserQuotaRecord) (userId : String) :
    CacheState UserQuotaRecord × List StoreEv :=
  cmDelete s userId

/-- The loop body of `clearExpiredQuotas`: walks the `getAll` snapshot,
deleting every record whose window has closed and counting deletions
(the running `cleared` counter of the source). -/
def sweepGo (now : Int) : List (String × UserQuotaRecord) →
    CacheState UserQuotaRecord × Nat → CacheState UserQuotaRecord × Nat
  | [], acc => acc
  | p :: rest, acc =>
      if now ≥ p.2.resetAt then
        sweepGo now rest ((cmDelete acc.1 p.1).1, acc.2 + 1)
      else sweepGo now rest acc

/-- Embedding of the current `clearExpiredQuotas()`: the TypeScript
function returns `void` (embedded as `Unit`); the number of removed
records is only computed internally and logged. -/
def clearExpiredQuotas (now : Int) (s : CacheState UserQuotaRecord) :
    Unit × CacheState UserQuotaRecord × List StoreEv :=
  let all := cmGetAll s
  let final := sweepGo now all.1 (s, 0)
  ((), final.1, all.2)

/-- The internal `cleared` counter of `clearExpiredQuotas`: how many
records the sweep removed (the value the source logs but does not
return). -/
def clearExpiredQuotasCleared (now : Int) (s : CacheState UserQuotaRecord) : Nat :=
  (sweepGo now (cmGetAll s).1 (s, 0)).2

/-- A definition following the spec's words, for comparison with the
code: sweepExpired iterates all records, deletes those whose
`resetAt <= now`, and RETURNS the count removed. -/
def sweepExpiredSpec (now : Int) (s : CacheState UserQuotaRecord) :
    Nat × CacheState UserQuotaRecord :=
  let final := sweepGo now (cmGetAll s).1 (s, 0)
  (final.2, final.1)

/-- Whether the sweep snapshot contains an expired entry for key `u`
(used to characterize what `clearExpiredQuotas` deletes). -/
def expIn (now : Int) (l : List (String × UserQuotaRecord)) (u : String) : Bool :=
  l.any (fun p => p.1 == u && decide (now ≥ p.2.resetAt))

/-- Holds when `checkUserQuota` at time `now` would start a fresh
window for `u`: no stored record, or a stored record whose window has
closed (`now >= resetAt`). -/
def freshWindow (now : Int) (s : CacheState UserQuotaRecord) (u : String) : Prop :=
  ∀ record, (cmGet s u).1 = some record → now ≥ record.resetAt

/-- Iterated quota checks for one user at the given sequence of
timestamps, collecting each call's result. -/
def runChecks (u : String) : List Int → CacheState UserQuotaRecord →
    List QuotaCheckResult × CacheState UserQuotaRecord
  | [], s => ([], s)
  | t :: ts, s =>
      let c := checkUserQuota t s u
      let rest := runChecks u ts c.2.1
      (c.1 :: rest.1, rest.2)

/-! ### Per-user quota, legacy revision (direct file I/O)

The legacy `user-rate-limit.ts` keeps a plain module-level map and
calls `loadQuotas()` (synchronous durable read) and `saveQuotas()`
(synchronous durable write) from inside the quota operations.  The
operations are embedded in the `Except` monad: the only sources of
errors are the file-system primitives (passed in as `Except` values),
and every `try`/`catch` of the source becomes a `match` that converts
the error into a logged, non-propagating fallback. -/

/-- A legacy quota store: the module-level `quotaStore` map. -/
abbrev QuotaStore := List (String × UserQuotaRecord)

/-- Embedding of the legacy `loadQuotas()`: reads and parses the
storage file (`disk`), merging the records into the store; any error is
caught and logged, leaving the store unchanged. -/
def legacyLoadQuotas (disk : Except String (List UserQuotaRecord))
    (store : QuotaStore) : Except String (QuotaStore × List StoreEv) :=
  match disk with
  | .ok records =>
      .ok (records.foldl (fun st r => mapSet st r.userId r) store, [.read])
  | .error _ => .ok (store, [.read])

/-- Embedding of the legacy `saveQuotas()`: writes the whole store; a
write failure is caught and logged. -/
def legacySaveQuotas (w : Except String Unit) (store : QuotaStore) :
    Except String (QuotaStore × List StoreEv) :=
  match w with
  | .ok _ => .ok (store, [.write])
  | .error _ => .ok (store, [.write])

/-- Embedding of the legacy `checkUserQuota(userId)`: loads from disk,
applies the same window/limit logic as the current revision, and saves
synchronously on every permitted call. -/
def legacyCheckUserQuota (disk : Except String (List UserQuotaRecord))
    (w : Except String Unit) (now : Int) (store : QuotaStore) (userId : String) :
    Except String (QuotaCheckResult × QuotaStore × List StoreEv) := do
  let l ← legacyLoadQuotas disk store
  let store1 := l.1
  let step1 : UserQuotaRecord × QuotaStore :=
    match mapFind? store1 userId with
    | none =>
        let fresh : UserQuotaRecord := { userId := userId, count := 0, resetAt := now + DAY_MS }
        (fresh, mapSet store1 userId fresh)
    | some record =>
        if now ≥ record.resetAt then
          let fresh : UserQuotaRecord := { userId := userId, count := 0, resetAt := now + DAY_MS }
          (fresh, mapSet store1 userId fresh)
        else (record, store1)
  let record := step1.1
  let remaining : Int := max 0 (DAILY_LIMIT - record.count)
  let allowed := remaining > 0
  if allowed then
    let record2 : UserQuotaRecord := { record with count := record.count + 1 }
    let store2 := mapSet step1.2 userId record2
    let sv ← legacySaveQuotas w store2
    pure ({ allowed := true, remaining := max 0 (remaining - 1), resetAt := record2.resetAt },
      sv.1, l.2 ++ sv.2)
  else
    pure ({ allowed := false, remaining := max 0 (remaining - 1), resetAt := record.resetAt },
      step1.2, l.2)

/-- Embedding of the legacy `getUserQuotaInfo(userId)`. -/
def legacyGetUserQuotaInfo (disk : Except String (List UserQuotaRecord))
    (now : Int) (store : QuotaStore) (userId : String) :
    Except String (QuotaInfo × QuotaStore × List StoreEv) := do
  let l ← legacyLoadQuotas disk store
  let store1 := l.1
  match mapFind? store1 userId with
  | none =>
      pure ({ used := 0, remaining := DAILY_LIMIT, resetAt := now + DAY_MS }, store1, l.2)
  | some record =>
      if now ≥ record.resetAt then
        pure ({ used := 0, remaining := DAILY_LIMIT, resetAt := now + DAY_MS }, store1, l.2)
      else
        pure ({ used := record.count, remaining := max 0 (DAILY_LIMIT - record.count),
                resetAt := record.resetAt }, store1, l.2)

/-- Embedding of the legacy `resetUserQuota(userId)`: deletes the
record and saves synchronously. -/
def legacyResetUserQuota (w : Except String Unit) (store : QuotaStore)
    (userId : String) : Except String (QuotaStore × List StoreEv) := do
  let store1 := mapDel store userId
  let sv ← legacySaveQuotas w store1
  pure (sv.1, sv.2)

/-- Boolean success test on `Except`. -/
def isOkE : Except ε α → Bool
  | .ok _ => true
  | .error _ => false

/-! ### Telegram history (`addSummaryToHistory`) -/

/-- `SummaryRecord` in the source (`createdAtDate`, a pure formatting
of `createdAt`, is omitted). -/
structure SummaryRecord where
  id : String
  userId : String
  summary : String
  keyPoints : List String
  originalText : String
  createdAt : Int
deriving Repr, DecidableEq

/-- `UserHistory` in the source. -/
structure UserHistory where
  userId : String
  summaries : List SummaryRecord
  lastUpdated : Int
deriving Repr, DecidableEq

/-- The module-level `historyStore` map. -/
abbrev HistStore := List (String × UserHistory)

/-- Embedding of `loadHistory()`: merges the parsed storage file into
the store; errors are caught and logged. -/
def loadHistory (disk : Except String (List UserHistory)) (store : HistStore) :
    HistStore × List StoreEv :=
  match disk with
  | .ok records => (records.foldl (fun st r => mapSet st r.userId r) store, [.read])
  | .error _ => (store, [.read])

/-- Embedding of `addSummaryToHistory`: loads, builds the new record
(`generateSummaryId` is the opaque `newId` parameter, and only the
first 200 characters of the original text are kept), prepends it to the
user's list, truncates to the 10 most recent, and saves (the write
event; a failed write is caught inside `saveHistory`). -/
def addSummaryToHistory (disk : Except String (List UserHistory)) (newId : String)
    (now : Int) (store : HistStore) (userId summary : String)
    (keyPoints : List String) (originalText : String) :
    SummaryRecord × HistStore × List StoreEv :=
  let l := loadHistory disk store
  let record : SummaryRecord :=
    { id := newId, userId := userId, summary := summary, keyPoints := keyPoints,
      originalText := originalText.take 200, createdAt := now }
  let userHistory : UserHistory :=
    match mapFind? l.1 userId with
    | none => { userId := userId, summaries := [], lastUpdated := now }
    | some h => h
  let summaries1 := record :: userHistory.summaries
  let summaries2 := if summaries1.length > 10 then summaries1.take 10 else summaries1
  let updated : UserHistory := { userHistory with summaries := summaries2, lastUpdated := now }
  (record, mapSet l.1 userId updated, l.2 ++ [.write])

/-- The stored history list of one user (empty when absent). -/
def histOf (store : HistStore) (userId : String) : List SummaryRecord :=
  match mapFind? store userId with
  | none => []
  | some h => h.summaries

/-- Newest-first ordering of a history list. -/
def newestFirst (l : List SummaryRecord) : Prop :=
  l.Pairwise (fun a b => b.createdAt ≤ a.createdAt)

/-! ### Concurrency model for deduplication coalescing

The claim is about two callers racing on one fingerprint: caller A has
already invoked the upstream computation and registered its promise
`pA` via `registerInflightRequest`; caller B runs the intended client
protocol (query `getInflightRequest`; join the returned promise, or
invoke and register its own).  The system is a labelled transition
system whose atomic steps are the synchronous map operations of the
source — the granularity of the JavaScript event loop — and every
interleaving of the two callers with the settle callback is a trace.
`outcomeOf` fixes each promise's single settlement outcome (a promise
resolves or rejects exactly once). -/

/-- A settlement outcome of the upstream computation. -/
inductive Outcome where
  | ok (r : CachedResponse)
  | fail (e : String)
deriving Repr, DecidableEq

/-- Caller B's control point in the dedup client protocol. -/
inductive BPhase where
  | start
  | looked (r : Option Nat)
  | awaiting (p : Nat) (invoked : Bool)
  | done (o : Outcome) (p : Nat) (invoked : Bool)
deriving Repr, DecidableEq

/-- Whether caller B has invoked the upstream computation itself. -/
def bInvoked : BPhase → Bool
  | .awaiting _ inv => inv
  | .done _ _ inv => inv
  | _ => false

/-- The joint state: the in-flight entry for the one fingerprint, the
settlement flags of the two possible promises, caller B's phase, and
what caller A has observed. -/
structure CSys where
  cache : Option Nat
  settledA : Bool
  settledB : Bool
  bPhase : BPhase
  aObserved : Option Outcome
deriving Repr, DecidableEq

/-- Trace events of the coalescing system. -/
inductive Ev where
  | lookupB (r : Option Nat)
  | joinB (p : Nat)
  | registerInvokeB (p : Nat)
  | settleA
  | settleB
  | observeA (o : Outcome)
  | observeB (o : Outcome)
deriving Repr, DecidableEq

/-- One atomic step, parameterized by A's promise `pA` and the fixed
outcome function.  `lookupB` is B running `getInflightRequest`;
`joinB` is B electing to await the found promise; `registerInvokeB` is
B invoking upstream and running `registerInflightRequest` after a miss;
`settleA` / `settleB` run the registered cleanup (the `.finally` that
deletes the in-flight entry); `observeA` / `observeB` are the awaits
completing with the settled promise's outcome. -/
inductive CStep (pA : Nat) (outcomeOf : Nat → Outcome) : CSys → Ev → CSys → Prop where
  | lookupB (s : CSys) (h : s.bPhase = .start) :
      CStep pA outcomeOf s (.lookupB s.cache) { s with bPhase := .looked s.cache }
  | joinB (s : CSys) (p : Nat) (h : s.bPhase = .looked (some p)) :
      CStep pA outcomeOf s (.joinB p) { s with bPhase := .awaiting p false }
  | registerInvokeB (s : CSys) (p : Nat) (h : s.bPhase = .looked none) :
      CStep pA outcomeOf s (.registerInvokeB p)
        { s with bPhase := .awaiting p true, cache := some p }
  | settleA (s : CSys) (h : s.settledA = false) :
      CStep pA outcomeOf s .settleA { s with settledA := true, cache := none }
  | settleB (s : CSys) (h : s.settledB = false) (hb : bInvoked s.bPhase = true) :
      CStep pA outcomeOf s .settleB { s with settledB := true, cache := none }
  | observeA (s : CSys) (h : s.settledA = true) (h2 : s.aObserved = none) :
      CStep pA outcomeOf s (.observeA (outcomeOf pA))
        { s with aObserved := some (outcomeOf pA) }
  | observeB (s : CSys) (p : Nat) (inv : Bool) (h : s.bPhase = .awaiting p inv)
      (hs : (if p = pA then s.settledA else s.settledB) = true) :
      CStep pA outcomeOf s (.observeB (outcomeOf p))
        { s with bPhase := .done (outcomeOf p) p inv }

/-- A run: a trace of steps from one state to another. -/
inductive CRun (pA : Nat) (outcomeOf : Nat → Outcome) : CSys → List Ev → CSys → Prop where
  | nil (s : CSys) : CRun pA outcomeOf s [] s
  | cons (s s1 s2 : CSys) (e : Ev) (tr : List Ev) :
      CStep pA outcomeOf s e s1 → CRun pA outcomeOf s1 tr s2 →
      CRun pA outcomeOf s (e :: tr) s2

/-- The claim's starting point: A has registered `pA` (so the
in-flight entry holds `pA`), nothing has settled, B is about to query,
and A has observed nothing yet. -/
def initCoalesce (pA : Nat) : CSys :=
  { cache := some pA, settledA := false, settledB := false,
    bPhase := .start, aObserved := none }

/-- The claim's ordering hypothesis, decidably: the first of
B's `getInflightRequest` query and the settle of A's promise to occur
in the trace is the query ("the other querying getInflightRequest
before it settles"). -/
def lookupPrecedesSettle : List Ev → Bool
  | [] => true
  | .settleA :: _ => false
  | .lookupB _ :: _ => true
  | _ :: rest => lookupPrecedesSettle rest

/-- Counts the upstream invocations performed by caller B in a trace. -/
def countInvokes (tr : List Ev) : Nat :=
  tr.countP (fun e => match e with | .registerInvokeB _ => true | _ => false)

/-- Caller B is coalesced onto promise `pA`: past its lookup, it can
only be joining, awaiting, or done with A's promise, without ever
having invoked upstream. -/
def goodB (pA : Nat) (outcomeOf : Nat → Outcome) : BPhase → Prop
  | .start => False
  | .looked r => r = some pA
  | .awaiting p inv => p = pA ∧ inv = false
  | .done o p inv => p = pA ∧ inv = false ∧ o = outcomeOf pA

end Summarizeit

namespace Summarizeit

/-! ### Association-list map lemmas -/

theorem mapFind?_set_self (m : List (String × α)) (k : String) (v : α) :
    mapFind? (mapSet m k v) k = some v := by
  simp [mapFind?, mapSet, List.find?]

theorem find?_filter_ne (m : List (String × α)) (k k' : String) (h : k' ≠ k) :
    (m.filter (fun p => p.1 != k)).find? (fun p => p.1 == k') =
      m.find? (fun p => p.1 == k') := by
  induction m with
  | nil => rfl
  | cons a m ih =>
      by_cases hk : a.1 = k'
      · subst hk
        have h1 : (a.1 != k) = true := by
          simp [bne_iff_ne]
          exact h
        simp [List.filter_cons, h1, List.find?]
      · have h2 : (a.1 == k') = false := by
          simp [hk]
        by_cases hk2 : a.1 = k
        · have h4 : (k == k') = false := by
            simp
            exact fun hx => h hx.symm
          simp [List.filter_cons, hk2, ih, List.find?, h4]
        · have h3 : (a.1 != k) = true := by
            simp [bne_iff_ne]
            exact hk2
          simp [List.filter_cons, h3, List.find?, h2, ih]

theorem mapFind?_set_ne (m : List (String × α)) (k k' : String) (v : α)
    (h : k' ≠ k) : mapFind? (mapSet m k v) k' = mapFind? m k' := by
  have h1 : (k == k') = false := by
    simp
    exact fun hk => h hk.symm
  simp [mapFind?, mapSet, List.find?, h1, find?_filter_ne m k k' h]

theorem mapFind?_del_self (m : List (String × α)) (k : String) :
    mapFind? (mapDel m k) k = none := by
  induction m with
  | nil => rfl
  | cons a m ih =>
      by_cases hk : a.1 = k
      · simpa [mapDel, List.filter_cons, hk] using ih
      · have h3 : (a.1 != k) = true := by
          simp [bne_iff_ne]
          exact hk
        have h2 : (a.1 == k) = false := by
          simp [hk]
        simp [mapDel, mapFind?, List.filter_cons, h3, List.find?, h2, ih]

theorem mapFind?_del_ne (m : List (String × α)) (k k' : String) (h : k' ≠ k) :
    mapFind? (mapDel m k) k' = mapFind? m k' := by
  simp [mapDel, mapFind?, find?_filter_ne m k k' h]


/-! ### C4: TTL semantics of the resolved-response cache -/

/-- C4: for every stored text, `getCachedSummary` returns the cached
result exactly when its timestamp is within the last `CACHE_TTL_MS`;
an entry strictly older than the TTL is treated as absent and is
evicted from the response cache by the lookup, while a live entry
leaves the cache unchanged. -/
theorem cached_summary_ttl (hash : String → String) (now : Int) (rc : RespCache)
    (text : String) (c : CachedResponse)
    (hc : mapFind? rc (hash text) = some c) :
    ((getCachedSummary hash now rc text).1 = some c ↔ now - c.timestamp ≤ CACHE_TTL_MS) ∧
    (now - c.timestamp > CACHE_TTL_MS →
      (getCachedSummary hash now rc text).2 = mapDel rc (hash text) ∧
      mapFind? (getCachedSummary hash now rc text).2 (hash text) = none) ∧
    (now - c.timestamp ≤ CACHE_TTL_MS →
      (getCachedSummary hash now rc text).2 = rc) := by
  by_cases hage : now - c.timestamp > CACHE_TTL_MS
  · refine ⟨?_, fun _ => ⟨?_, ?_⟩, fun hle => absurd hage (by omega)⟩
    · simp [getCachedSummary, hc, if_pos hage]
      omega
    · simp [getCachedSummary, hc, if_pos hage]
    · simp [getCachedSummary, hc, if_pos hage, mapFind?_del_self]
  · refine ⟨?_, fun hgt => absurd hgt hage, fun _ => ?_⟩
    · simp [getCachedSummary, hc, if_neg hage]
      omega
    · simp [getCachedSummary, hc, if_neg hage]

/-- Witness for C4 at concrete inputs: one entry of age exactly the
TTL (still returned) and, separately via the theorem's second leg, an
entry of age TTL + 1 (evicted). -/
theorem cached_summary_ttl_witness :
    (mapFind? [("k", CachedResponse.mk "s" [] 0)] "k" =
        some (CachedResponse.mk "s" [] 0)) ∧
    ((getCachedSummary (fun _ => "k") CACHE_TTL_MS
        [("k", CachedResponse.mk "s" [] 0)] "x").1 =
          some (CachedResponse.mk "s" [] 0) ↔
      CACHE_TTL_MS - (CachedResponse.mk "s" [] 0).timestamp ≤ CACHE_TTL_MS) ∧
    ((getCachedSummary (fun _ => "k") (CACHE_TTL_MS + 1)
        [("k", CachedResponse.mk "s" [] 0)] "x").1 = some (CachedResponse.mk "s" [] 0) ↔
      (CACHE_TTL_MS + 1) - (CachedResponse.mk "s" [] 0).timestamp ≤ CACHE_TTL_MS) := by
  refine ⟨by decide, ?_, ?_⟩
  · exact (cached_summary_ttl (fun _ => "k") CACHE_TTL_MS
      [("k", CachedResponse.mk "s" [] 0)] "x" (CachedResponse.mk "s" [] 0) (by decide)).1
  · exact (cached_summary_ttl (fun _ => "k") (CACHE_TTL_MS + 1)
      [("k", CachedResponse.mk "s" [] 0)] "x" (CachedResponse.mk "s" [] 0) (by decide)).1

/-! ### C5: in-flight cleanup on settlement -/

/-- C5: once a promise registered via `registerInflightRequest`
settles, the in-flight entry for the fingerprint is removed — a
subsequent `getInflightRequest` returns absent, whether the promise
fulfilled or rejected — and the response cache gains the resolved entry
exactly on success: on failure it is left untouched. -/
theorem inflight_cleanup (hash : String → String) (text : String) (p : Nat)
    (s : DedupState) :
    (∀ outcome, getInflightRequest hash text
        (settleInflight hash text outcome (registerInflightRequest hash text p s)) = none) ∧
    (∀ r, (settleInflight hash text (.ok r) (registerInflightRequest hash text p s)).responseCache =
        mapSet s.responseCache (hash text) r) ∧
    (∀ e, (settleInflight hash text (.error e) (registerInflightRequest hash text p s)).responseCache =
        s.responseCache) := by
  refine ⟨fun outcome => ?_, fun r => rfl, fun e => rfl⟩
  cases outcome with
  | ok r => simp [getInflightRequest, settleInflight, registerInflightRequest, mapFind?_del_self]
  | error e => simp [getInflightRequest, settleInflight, registerInflightRequest, mapFind?_del_self]

/-! ### C10: the dedup key is the hash of the raw text -/

/-- C10: with the fingerprint function injective (the spec's "distinct
inputs produce distinct fingerprints"), caching a response for `s` and
then looking up `t` within the TTL returns that response precisely when
`t` is the identical string — no normalization is applied, so texts
differing in whitespace or case occupy distinct entries; determinism of
the keying across the two calls is what makes the forward direction
hold. -/
theorem dedup_key_exact_text (hash : String → String)
    (hinj : Function.Injective hash) (s t : String) (r : CachedResponse)
    (now : Int) (httl : now - r.timestamp ≤ CACHE_TTL_MS) :
    (getCachedSummary hash now (cacheResponse hash s r []) t).1 = some r ↔ t = s := by
  constructor
  · intro hres
    by_contra hne
    have hne2 : hash t ≠ hash s := fun h => hne (hinj h)
    have hfind : mapFind? (cacheResponse hash s r []) (hash t) = none := by
      rw [cacheResponse, mapFind?_set_ne _ _ _ _ hne2]
      rfl
    simp [getCachedSummary, hfind] at hres
  · intro ht
    subst ht
    have hfind : mapFind? (cacheResponse hash t r []) (hash t) = some r := by
      simp [cacheResponse, mapFind?_set_self]
    have hno : ¬ now - r.timestamp > CACHE_TTL_MS := by omega
    simp [getCachedSummary, hfind, if_neg hno]

/-- Witness for C10 at concrete inputs: the identity fingerprint
function (injective), a cached response for "a", and the two lookups
"a" (hit) and "a " (whitespace-differing, miss). -/
theorem dedup_key_exact_text_witness :
    Function.Injective (fun x : String => x) ∧
    ((0 : Int) - (CachedResponse.mk "s" [] 0).timestamp ≤ CACHE_TTL_MS) ∧
    ((getCachedSummary (fun x : String => x) 0
        (cacheResponse (fun x : String => x) "a" (CachedResponse.mk "s" [] 0) []) "a").1 =
          some (CachedResponse.mk "s" [] 0) ↔ "a" = "a") ∧
    ((getCachedSummary (fun x : String => x) 0
        (cacheResponse (fun x : String => x) "a" (CachedResponse.mk "s" [] 0) []) "a ").1 =
          some (CachedResponse.mk "s" [] 0) ↔ "a " = "a") := by
  refine ⟨fun a b h => h, by decide, ?_, ?_⟩
  · exact dedup_key_exact_text (fun x => x) (fun a b h => h) "a" "a"
      (CachedResponse.mk "s" [] 0) 0 (by decide)
  · exact dedup_key_exact_text (fun x => x) (fun a b h => h) "a" "a "
      (CachedResponse.mk "s" [] 0) 0 (by decide)

/-! ### Quota step lemmas -/

theorem mapSet_mapSet (m : List (String × α)) (k : String) (v v2 : α) :
    mapSet (mapSet m k v) k v2 = mapSet m k v2 := by
  simp [mapSet, List.filter_cons, List.filter_filter]

/-- A call that starts a fresh window: the record is reset and one unit
is consumed immediately. -/
theorem checkUserQuota_fresh (now : Int) (s : CacheState UserQuotaRecord) (u : String)
    (hfresh : freshWindow now s u) :
    checkUserQuota now s u =
      ({ allowed := true, remaining := 9, resetAt := now + DAY_MS },
       { table := mapSet s.table u
           { data := { userId := u, count := 1, resetAt := now + DAY_MS },
             lastModified := now },
         dirty := true }, []) := by
  unfold freshWindow at hfresh
  have hg2 : (cmGet s u).2 = [] := rfl
  rcases hg : (cmGet s u).1 with _ | record
  · simp only [checkUserQuota, hg, hg2, cmSet, DAILY_LIMIT]
    norm_num
    exact mapSet_mapSet s.table u _ _
  · have h1 := hfresh record hg
    simp only [checkUserQuota, hg, hg2, cmSet, DAILY_LIMIT, if_pos h1]
    norm_num
    exact mapSet_mapSet s.table u _ _

/-- A call inside an open window with remaining quota: the counter
advances by one and the window end is unchanged. -/
theorem checkUserQuota_inWindow (now : Int) (s : CacheState UserQuotaRecord) (u : String)
    (k R : Int) (hrec : (cmGet s u).1 = some { userId := u, count := k, resetAt := R })
    (hnow : now < R) (hk0 : 0 ≤ k) (hk : k < 10) :
    checkUserQuota now s u =
      ({ allowed := true, remaining := 10 - (k + 1), resetAt := R },
       { table := mapSet s.table u
           { data := { userId := u, count := k + 1, resetAt := R },
             lastModified := now },
         dirty := true }, []) := by
  have hg2 : (cmGet s u).2 = [] := rfl
  have hnolt : ¬ now ≥ R := by omega
  have hmax : max (0 : Int) (10 - k) = 10 - k := by omega
  have hpos : (10 - k : Int) > 0 := by omega
  have hmax2 : max (0 : Int) (10 - k - 1) = 10 - (k + 1) := by omega
  simp only [checkUserQuota, hrec, hg2, cmSet, DAILY_LIMIT, if_neg hnolt, hmax,
    if_pos hpos, hmax2]
  norm_num

/-- A call inside an open window with the quota exhausted: rejected,
and the state is left exactly as it was. -/
theorem checkUserQuota_exhausted (now : Int) (s : CacheState UserQuotaRecord) (u : String)
    (record : UserQuotaRecord) (hrec : (cmGet s u).1 = some record)
    (hnow : now < record.resetAt) (hk : record.count ≥ 10) :
    checkUserQuota now s u =
      ({ allowed := false, remaining := 0, resetAt := record.resetAt }, s, []) := by
  have hg2 : (cmGet s u).2 = [] := rfl
  have hnolt : ¬ now ≥ record.resetAt := by omega
  have hmax : max (0 : Int) (10 - record.count) = 0 := by omega
  have hneg : ¬ ((0 : Int) > 0) := by omega
  simp only [checkUserQuota, hrec, hg2, cmSet, DAILY_LIMIT, if_neg hnolt, hmax,
    if_neg hneg]
  norm_num

/-! ### C3: window rollover -/

/-- C3: when the stored record is absent or its window has closed
(`now >= resetAt`), `checkUserQuota` resets the window: it answers
`allowed = true` with `remaining = DAILY_LIMIT - 1 = 9`, the new window
ends at `now + DAY_MS`, the stored record holds the reset count (0 plus
the unit this very call consumed), and no other user's record is
touched. -/
theorem quota_window_rollover (now : Int) (s : CacheState UserQuotaRecord) (u : String)
    (hfresh : freshWindow now s u) :
    (checkUserQuota now s u).1 =
      { allowed := true, remaining := 9, resetAt := now + DAY_MS } ∧
    (cmGet (checkUserQuota now s u).2.1 u).1 =
      some { userId := u, count := 1, resetAt := now + DAY_MS } ∧
    (∀ u2, u2 ≠ u → (cmGet (checkUserQuota now s u).2.1 u2).1 = (cmGet s u2).1) := by
  rw [checkUserQuota_fresh now s u hfresh]
  refine ⟨rfl, ?_, fun u2 h2 => ?_⟩
  · simp [cmGet, mapFind?_set_self]
  · simp [cmGet, mapFind?_set_ne _ _ _ _ h2]

/-- Witness for C3: a user whose stored window closed in the past
(reset time 50, called at time 100) gets a fresh window ending a day
later with 9 remaining. -/
theorem quota_window_rollover_witness :
    freshWindow 100
      { table := [("u1", { data := { userId := "u1", count := 5, resetAt := 50 },
                           lastModified := 0 })], dirty := false } "u1" ∧
    (checkUserQuota 100
      { table := [("u1", { data := { userId := "u1", count := 5, resetAt := 50 },
                           lastModified := 0 })], dirty := false } "u1").1 =
      { allowed := true, remaining := 9, resetAt := 100 + DAY_MS } ∧
    (cmGet (checkUserQuota 100
      { table := [("u1", { data := { userId := "u1", count := 5, resetAt := 50 },
                           lastModified := 0 })], dirty := false } "u1").2.1 "u1").1 =
      some { userId := "u1", count := 1, resetAt := 100 + DAY_MS } := by
  have hf : freshWindow 100
      { table := [("u1", { data := { userId := "u1", count := 5, resetAt := 50 },
                           lastModified := 0 })], dirty := false } "u1" := by
    intro record h
    have hcm : (cmGet
        ({ table := [("u1", { data := { userId := "u1", count := 5, resetAt := 50 },
                              lastModified := 0 })], dirty := false } :
          CacheState UserQuotaRecord) "u1").1 =
        some { userId := "u1", count := 5, resetAt := 50 } := by decide
    rw [hcm] at h
    cases h
    norm_num
  have h := quota_window_rollover 100
    { table := [("u1", { data := { userId := "u1", count := 5, resetAt := 50 },
                         lastModified := 0 })], dirty := false } "u1" hf
  exact ⟨hf, h.1, h.2.1⟩


/-! ### C2: quota monotonicity and exhaustion -/

/-- Iterated in-window calls: starting from a stored count `k`, each of
the calls is allowed with `remaining` falling by one, and the stored
count advances by the number of calls. -/
theorem runChecks_inWindow (u : String) (R : Int) (ts : List Int) :
    ∀ (k : Int) (s : CacheState UserQuotaRecord),
      (cmGet s u).1 = some { userId := u, count := k, resetAt := R } →
      0 ≤ k → k + ts.length ≤ 10 → (∀ t ∈ ts, t < R) →
      (runChecks u ts s).1 = (List.range ts.length).map
          (fun i => { allowed := true, remaining := 10 - (k + (i : Int) + 1),
                      resetAt := R }) ∧
      (cmGet (runChecks u ts s).2 u).1 =
        some { userId := u, count := k + ts.length, resetAt := R } := by
  induction ts with
  | nil =>
      intro k s hrec hk0 hk hts
      refine ⟨rfl, ?_⟩
      simpa using hrec
  | cons t ts ih =>
      intro k s hrec hk0 hk hts
      have hklt : k < 10 := by
        simp only [List.length_cons] at hk
        push_cast at hk
        omega
      have hstep := checkUserQuota_inWindow t s u k R hrec (hts t (by simp)) hk0 hklt
      have hrec1 : (cmGet
          ({ table := mapSet s.table u
               { data := { userId := u, count := k + 1, resetAt := R },
                 lastModified := t },
             dirty := true } : CacheState UserQuotaRecord) u).1 =
          some { userId := u, count := k + 1, resetAt := R } := by
        simp [cmGet, mapFind?_set_self]
      have hih := ih (k + 1)
        { table := mapSet s.table u
            { data := { userId := u, count := k + 1, resetAt := R },
              lastModified := t },
          dirty := true } hrec1 (by omega)
        (by simp only [List.length_cons] at hk; push_cast at hk ⊢; omega)
        (fun t2 ht2 => hts t2 (by simp [ht2]))
      have hrun : runChecks u (t :: ts) s =
          (({ allowed := true, remaining := 10 - (k + 1), resetAt := R } :
              QuotaCheckResult) ::
            (runChecks u ts
              { table := mapSet s.table u
                  { data := { userId := u, count := k + 1, resetAt := R },
                    lastModified := t },
                dirty := true }).1,
            (runChecks u ts
              { table := mapSet s.table u
                  { data := { userId := u, count := k + 1, resetAt := R },
                    lastModified := t },
                dirty := true }).2) := by
        simp [runChecks, hstep]
      rw [hrun]
      constructor
      · simp only [List.length_cons, List.range_succ_eq_map, List.map_cons, List.map_map,
          List.cons.injEq]
        refine ⟨by norm_num, ?_⟩
        rw [hih.1]
        apply List.map_congr_left
        intro i _
        simp only [Function.comp, QuotaCheckResult.mk.injEq, true_and, and_true]
        push_cast
        ring
      · rw [hih.2]
        simp only [List.length_cons, Option.some.injEq, UserQuotaRecord.mk.injEq,
          true_and, and_true]
        push_cast
        ring

/-- C2: from a fresh window, the first N calls (N at most the daily
limit of 10) are all allowed with `remaining` decreasing by exactly one
per call down to `10 - N`; and when N = 10, one further call inside the
same window is rejected with `remaining = 0`, leaving the cache state
(in particular the stored count of 10) completely unmutated. -/
theorem quota_monotonic_exhaustion (s : CacheState UserQuotaRecord) (u : String)
    (t1 : Int) (ts : List Int)
    (hfresh : freshWindow t1 s u)
    (hlen : ts.length + 1 ≤ 10)
    (hwin : ∀ t ∈ ts, t1 ≤ t ∧ t < t1 + DAY_MS) :
    (runChecks u (t1 :: ts) s).1 = (List.range (ts.length + 1)).map
        (fun i => { allowed := true, remaining := 10 - ((i : Int) + 1),
                    resetAt := t1 + DAY_MS }) ∧
    (∀ t2, t1 ≤ t2 → t2 < t1 + DAY_MS → ts.length + 1 = 10 →
      (checkUserQuota t2 (runChecks u (t1 :: ts) s).2 u).1 =
        { allowed := false, remaining := 0, resetAt := t1 + DAY_MS } ∧
      (checkUserQuota t2 (runChecks u (t1 :: ts) s).2 u).2.1 =
        (runChecks u (t1 :: ts) s).2 ∧
      (cmGet (runChecks u (t1 :: ts) s).2 u).1 =
        some { userId := u, count := 10, resetAt := t1 + DAY_MS }) := by
  have hstep := checkUserQuota_fresh t1 s u hfresh
  have hrec1 : (cmGet
      ({ table := mapSet s.table u
           { data := { userId := u, count := 1, resetAt := t1 + DAY_MS },
             lastModified := t1 },
         dirty := true } : CacheState UserQuotaRecord) u).1 =
      some { userId := u, count := 1, resetAt := t1 + DAY_MS } := by
    simp [cmGet, mapFind?_set_self]
  have hih := runChecks_inWindow u (t1 + DAY_MS) ts 1
    { table := mapSet s.table u
        { data := { userId := u, count := 1, resetAt := t1 + DAY_MS },
          lastModified := t1 },
      dirty := true } hrec1 (by norm_num)
    (by omega) (fun t2 ht2 => (hwin t2 ht2).2)
  have hrun : runChecks u (t1 :: ts) s =
      (({ allowed := true, remaining := 9, resetAt := t1 + DAY_MS } :
          QuotaCheckResult) ::
        (runChecks u ts
          { table := mapSet s.table u
              { data := { userId := u, count := 1, resetAt := t1 + DAY_MS },
                lastModified := t1 },
            dirty := true }).1,
        (runChecks u ts
          { table := mapSet s.table u
              { data := { userId := u, count := 1, resetAt := t1 + DAY_MS },
                lastModified := t1 },
            dirty := true }).2) := by
    simp [runChecks, hstep]
  rw [hrun]
  constructor
  · simp only [List.range_succ_eq_map, List.map_cons, List.map_map, List.cons.injEq]
    refine ⟨by norm_num, ?_⟩
    rw [hih.1]
    apply List.map_congr_left
    intro i _
    simp only [Function.comp, QuotaCheckResult.mk.injEq, true_and, and_true]
    push_cast
    ring
  · intro t2 h1 h2 h10
    have hcount : (1 : Int) + ts.length = 10 := by
      have : ts.length = 9 := by omega
      rw [this]
      norm_num
    have hrecF : (cmGet (runChecks u ts
        { table := mapSet s.table u
            { data := { userId := u, count := 1, resetAt := t1 + DAY_MS },
              lastModified := t1 },
          dirty := true }).2 u).1 =
        some { userId := u, count := 10, resetAt := t1 + DAY_MS } := by
      rw [hih.2, hcount]
    have hex := checkUserQuota_exhausted t2 (runChecks u ts
        { table := mapSet s.table u
            { data := { userId := u, count := 1, resetAt := t1 + DAY_MS },
              lastModified := t1 },
          dirty := true }).2 u
        { userId := u, count := 10, resetAt := t1 + DAY_MS } hrecF
        (by show t2 < t1 + DAY_MS; omega)
        (by show (10 : Int) ≥ 10; norm_num)
    rw [hex]
    exact ⟨rfl, rfl, hrecF⟩

/-- Witness for C2 at concrete inputs: user "u1" starting from an empty
cache makes 10 calls at times inside one day (N = 10); all are allowed
with remaining 9, 8, ..., 0, and an 11th call at time 5 is rejected
with remaining 0. -/
theorem quota_monotonic_exhaustion_witness :
    freshWindow 0 { table := [], dirty := false } "u1" ∧
    (∀ t ∈ ([0, 0, 0, 0, 0, 0, 0, 0, 0] : List Int), (0 : Int) ≤ t ∧ t < 0 + DAY_MS) ∧
    (runChecks "u1" (0 :: [0, 0, 0, 0, 0, 0, 0, 0, 0])
        { table := [], dirty := false }).1 =
      (List.range (([0, 0, 0, 0, 0, 0, 0, 0, 0] : List Int).length + 1)).map
        (fun i => { allowed := true, remaining := 10 - ((i : Int) + 1),
                    resetAt := 0 + DAY_MS }) ∧
    (checkUserQuota 5 (runChecks "u1" (0 :: [0, 0, 0, 0, 0, 0, 0, 0, 0])
        { table := [], dirty := false }).2 "u1").1 =
      { allowed := false, remaining := 0, resetAt := 0 + DAY_MS } := by
  have hf : freshWindow 0 ({ table := [], dirty := false } :
      CacheState UserQuotaRecord) "u1" := by
    intro record h
    simp [cmGet, mapFind?] at h
  have hw : ∀ t ∈ ([0, 0, 0, 0, 0, 0, 0, 0, 0] : List Int),
      (0 : Int) ≤ t ∧ t < 0 + DAY_MS := by
    intro t ht
    simp at ht
    subst ht
    norm_num [DAY_MS]
  have h := quota_monotonic_exhaustion { table := [], dirty := false } "u1" 0
    [0, 0, 0, 0, 0, 0, 0, 0, 0] hf (by norm_num) hw
  exact ⟨hf, hw, h.1,
    (h.2 5 (by norm_num) (by norm_num [DAY_MS]) (by norm_num)).1⟩

/-! ### C6: quota operations and the durable store -/

/-- The current checkUserQuota performs no durable-store I/O. -/
theorem checkUserQuota_events (now : Int) (s : CacheState UserQuotaRecord) (u : String) :
    (checkUserQuota now s u).2.2 = [] := by
  have hg2 : (cmGet s u).2 = [] := rfl
  rcases hg : (cmGet s u).1 with _ | r
  · simp only [checkUserQuota, hg, hg2, cmSet]
    split
    · rfl
    · rfl
  · simp only [checkUserQuota, hg, hg2, cmSet]
    split
    · split
      · rfl
      · rfl
    · split
      · rfl
      · rfl

/-- The current getUserQuotaInfo performs no durable-store I/O. -/
theorem getUserQuotaInfo_events (now : Int) (s : CacheState UserQuotaRecord) (u : String) :
    (getUserQuotaInfo now s u).2.2 = [] := by
  have hg2 : (cmGet s u).2 = [] := rfl
  rcases hg : (cmGet s u).1 with _ | r
  · simp only [getUserQuotaInfo, hg, hg2]
  · simp only [getUserQuotaInfo, hg, hg2]
    split
    · rfl
    · rfl

/-- C6 (amended): in the cache-manager-backed quota module every quota
read and write is pure in-memory — `checkUserQuota`,
`getUserQuotaInfo`, `resetUserQuota` and the expiry sweep perform no
durable-store I/O at all; the cache `get` reads nothing and the cache
`set` writes nothing, only marking the table dirty — while the durable
store is touched exactly by the load (`loadFromDisk`, one read), the
flush (`saveToDisk`, one write whenever the table is dirty, including
the final shutdown flush), and `clear`. -/
theorem quota_ops_memory_only (now : Int) (s : CacheState UserQuotaRecord)
    (u : String) (v : UserQuotaRecord)
    (disk : Except String (List (String × UserQuotaRecord))) (writeOk : Bool) :
    (checkUserQuota now s u).2.2 = [] ∧
    (getUserQuotaInfo now s u).2.2 = [] ∧
    (resetUserQuota s u).2 = [] ∧
    (clearExpiredQuotas now s).2.2 = [] ∧
    (cmGet s u).2 = [] ∧
    ((cmSet now s u v).2 = [] ∧ (cmSet now s u v).1.dirty = true) ∧
    (cmLoadFromDisk disk now s).2 = [StoreEv.read] ∧
    (s.dirty = true → (cmSaveToDisk writeOk s).2 = [StoreEv.write]) ∧
    (cmClear writeOk s).2 = [StoreEv.write] := by
  refine ⟨checkUserQuota_events now s u, getUserQuotaInfo_events now s u, rfl, rfl,
    rfl, ⟨rfl, rfl⟩, ?_, fun hd => ?_, ?_⟩
  · cases disk with
    | ok records => rfl
    | error e => rfl
  · cases writeOk with
    | true => simp [cmSaveToDisk, hd]
    | false => simp [cmSaveToDisk, hd]
  · cases writeOk with
    | true => rfl
    | false => rfl

/-- Witness for C6's amended theorem at concrete inputs, including a
dirty state for the flush leg. -/
theorem quota_ops_memory_only_witness :
    (({ table := [], dirty := true } : CacheState UserQuotaRecord).dirty = true) ∧
    (checkUserQuota 0 { table := [], dirty := true } "u1").2.2 = [] ∧
    (cmSaveToDisk false ({ table := [], dirty := true } :
      CacheState UserQuotaRecord)).2 = [StoreEv.write] := by
  have h := quota_ops_memory_only 0 { table := [], dirty := true } "u1"
    { userId := "u1", count := 0, resetAt := 0 } (.ok []) false
  exact ⟨rfl, h.1, h.2.2.2.2.2.2.2.1 rfl⟩

/-- C6 counterexample: the legacy quota module at the claim's cited
lines refutes the claim as stated — a single `checkUserQuota` call
performs a synchronous durable-store read (`loadQuotas`) and, being
allowed, a synchronous durable-store write (`saveQuotas`), so quota
reads and writes there are not pure in-memory operations. -/
theorem legacy_quota_check_touches_store :
    (legacyCheckUserQuota (.ok []) (.ok ()) 0 [] "u7").map (fun r => r.2.2) =
      .ok [StoreEv.read, StoreEv.write] := by
  rfl

/-! ### C7: persistence failures are contained -/

/-- C7: every durable-store failure inside the legacy quota module is
swallowed by its `try`/`catch`: for every disk read outcome and write
outcome (including failures), `loadQuotas`, `saveQuotas`,
`checkUserQuota`, `getUserQuotaInfo` and `resetUserQuota` all return
normally (no exception escapes to callers), and a failed load at
startup (empty table) leaves the table empty. -/
theorem persistence_failures_contained
    (disk : Except String (List UserQuotaRecord)) (w : Except String Unit)
    (now : Int) (store : QuotaStore) (u : String) :
    isOkE (legacyLoadQuotas disk store) = true ∧
    isOkE (legacySaveQuotas w store) = true ∧
    isOkE (legacyCheckUserQuota disk w now store u) = true ∧
    isOkE (legacyGetUserQuotaInfo disk now store u) = true ∧
    isOkE (legacyResetUserQuota w store u) = true ∧
    (∀ e, legacyLoadQuotas (.error e) [] = .ok ([], [StoreEv.read])) := by
  have hload : ∀ st : QuotaStore, ∃ st2 ev,
      legacyLoadQuotas disk st = .ok (st2, ev) := by
    intro st
    cases disk with
    | ok records => exact ⟨_, _, rfl⟩
    | error e => exact ⟨_, _, rfl⟩
  have hsave : ∀ st : QuotaStore, ∃ st2 ev,
      legacySaveQuotas w st = .ok (st2, ev) := by
    intro st
    cases w with
    | ok x => exact ⟨_, _, rfl⟩
    | error e => exact ⟨_, _, rfl⟩
  obtain ⟨st2, ev2, hl⟩ := hload store
  obtain ⟨st3, ev3, hs⟩ := hsave store
  refine ⟨by rw [hl]; rfl, by rw [hs]; rfl, ?_, ?_, ?_, fun e => rfl⟩
  · simp only [legacyCheckUserQuota, hl, bind, Except.bind]
    split
    · obtain ⟨st4, ev4, hs4⟩ := hsave _
      rw [hs4]
      rfl
    · rfl
  · simp only [legacyGetUserQuotaInfo, hl, bind, Except.bind]
    split
    · rfl
    · split
      · rfl
      · rfl
  · simp only [legacyResetUserQuota, bind, Except.bind]
    obtain ⟨st4, ev4, hs4⟩ := hsave _
    rw [hs4]
    rfl

/-! ### C9: exactness of the expiry sweep -/

theorem mapFind?_mem (m : List (String × α)) (u : String) (e : α)
    (h : mapFind? m u = some e) : (u, e) ∈ m := by
  simp only [mapFind?, Option.map_eq_some'] at h
  obtain ⟨p, hp, hpe⟩ := h
  have hmem := List.mem_of_find?_eq_some hp
  have hkey := List.find?_some hp
  rw [beq_iff_eq] at hkey
  rw [← hpe, ← hkey]
  exact hmem

theorem mapFind?_none_not_mem (m : List (String × α)) (u : String) (e : α)
    (h : mapFind? m u = none) : (u, e) ∉ m := by
  intro hmem
  simp only [mapFind?, Option.map_eq_none'] at h
  have h2 := List.find?_eq_none.mp h (u, e) hmem
  simp at h2

theorem mem_mapFind? (u : String) (e : α) :
    ∀ (m : List (String × α)), (m.map Prod.fst).Nodup → (u, e) ∈ m →
      mapFind? m u = some e := by
  intro m
  induction m with
  | nil =>
      intro _ h
      cases h
  | cons a m ih =>
      intro hnd h
      simp only [List.map_cons, List.nodup_cons] at hnd
      rcases List.mem_cons.mp h with heq | hmem
      · rw [← heq]
        simp [mapFind?, List.find?]
      · have hne : a.1 ≠ u := by
          intro hequ
          apply hnd.1
          rw [hequ]
          exact List.mem_map_of_mem Prod.fst hmem
        have hbeq : (a.1 == u) = false := by simp [hne]
        have hskip : mapFind? (a :: m) u = mapFind? m u := by
          simp [mapFind?, List.find?, hbeq]
        rw [hskip]
        exact ih hnd.2 hmem

/-- The sweep's internal counter counts exactly the expired snapshot
entries. -/
theorem sweepGo_count (now : Int) (l : List (String × UserQuotaRecord)) :
    ∀ (s : CacheState UserQuotaRecord) (c : Nat),
      (sweepGo now l (s, c)).2 =
        c + (l.filter (fun p => decide (now ≥ p.2.resetAt))).length := by
  induction l with
  | nil =>
      intro s c
      simp [sweepGo]
  | cons p rest ih =>
      intro s c
      by_cases hp : now ≥ p.2.resetAt
      · simp only [sweepGo, if_pos hp, ih, List.filter_cons, decide_eq_true hp]
        simp
        omega
      · simp only [sweepGo, if_neg hp, ih, List.filter_cons]
        simp [hp]

/-- After the sweep's loop, a key resolves to nothing when the snapshot
held an expired entry for it, and to its old value otherwise. -/
theorem sweepGo_find (now : Int) (l : List (String × UserQuotaRecord)) :
    ∀ (s : CacheState UserQuotaRecord) (c : Nat) (u : String),
      mapFind? (sweepGo now l (s, c)).1.table u =
        if expIn now l u = true then none else mapFind? s.table u := by
  induction l with
  | nil =>
      intro s c u
      simp [sweepGo, expIn]
  | cons p rest ih =>
      intro s c u
      by_cases hp : now ≥ p.2.resetAt
      · have hstep : sweepGo now (p :: rest) (s, c) =
            sweepGo now rest ((cmDelete s p.1).1, c + 1) := by
          simp [sweepGo, hp]
        rw [hstep, ih]
        by_cases hu : p.1 = u
        · subst hu
          have hcons : expIn now ((p.1, p.2) :: rest) p.1 = true := by
            simp [expIn, hp]
          rw [hcons]
          by_cases hr : expIn now rest p.1 = true
          · rw [hr]
            simp
          · rw [Bool.not_eq_true] at hr
            rw [hr]
            simp [cmDelete, mapFind?_del_self]
        · have hbeq : (p.1 == u) = false := by simp [hu]
          have hcons : expIn now ((p.1, p.2) :: rest) u = expIn now rest u := by
            simp [expIn, hbeq]
          rw [hcons]
          by_cases hr : expIn now rest u = true
          · rw [hr]
            simp
          · rw [Bool.not_eq_true] at hr
            rw [hr]
            simp [cmDelete, mapFind?_del_ne _ _ _ (fun hx => hu hx.symm)]
      · have hstep : sweepGo now (p :: rest) (s, c) = sweepGo now rest (s, c) := by
          simp [sweepGo, hp]
        have hcons : expIn now ((p.1, p.2) :: rest) u = expIn now rest u := by
          simp [expIn, hp]
        rw [hstep, ih, hcons]

/-- C9 (amended): `clearExpiredQuotas` deletes exactly the quota
records whose `resetAt <= now` (absent and unexpired keys keep their
exact previous binding) and its internal `cleared` counter equals the
number of expired records; but the function returns `void` (the unit
value) — the count is logged, not returned. -/
theorem sweep_expired_exact (now : Int) (s : CacheState UserQuotaRecord)
    (hnd : (s.table.map Prod.fst).Nodup) :
    (clearExpiredQuotas now s).1 = () ∧
    (∀ u e, mapFind? s.table u = some e → now ≥ e.data.resetAt →
      mapFind? (clearExpiredQuotas now s).2.1.table u = none) ∧
    (∀ u e, mapFind? s.table u = some e → now < e.data.resetAt →
      mapFind? (clearExpiredQuotas now s).2.1.table u = some e) ∧
    (∀ u, mapFind? s.table u = none →
      mapFind? (clearExpiredQuotas now s).2.1.table u = none) ∧
    (clearExpiredQuotasCleared now s =
      ((cmGetAll s).1.filter (fun p => decide (now ≥ p.2.resetAt))).length) := by
  have hpost : ∀ u, mapFind? (clearExpiredQuotas now s).2.1.table u =
      if expIn now (cmGetAll s).1 u = true then none else mapFind? s.table u := by
    intro u
    have hcl : (clearExpiredQuotas now s).2.1 =
        (sweepGo now (cmGetAll s).1 (s, 0)).1 := rfl
    rw [hcl, sweepGo_find]
  refine ⟨rfl, ?_, ?_, ?_, ?_⟩
  · intro u e hf he
    rw [hpost u]
    have hexp : expIn now (cmGetAll s).1 u = true := by
      have hmem := mapFind?_mem s.table u e hf
      simp only [expIn, List.any_eq_true]
      refine ⟨(u, e.data), ?_, ?_⟩
      · simp only [cmGetAll]
        exact List.mem_map_of_mem _ hmem
      · simp [he]
    rw [hexp]
    simp
  · intro u e hf hl
    rw [hpost u]
    have hexp : expIn now (cmGetAll s).1 u = false := by
      by_contra hx
      rw [Bool.not_eq_false] at hx
      simp only [expIn, List.any_eq_true] at hx
      obtain ⟨x, hxmem, hxp⟩ := hx
      simp only [cmGetAll, List.mem_map] at hxmem
      obtain ⟨p, hpmem, hpx⟩ := hxmem
      rw [← hpx] at hxp
      simp only [Bool.and_eq_true, beq_iff_eq, decide_eq_true_eq] at hxp
      obtain ⟨hkey, hexp2⟩ := hxp
      have hmem2 : (u, p.2) ∈ s.table := by
        rw [← hkey]
        exact hpmem
      have hfind2 := mem_mapFind? u p.2 s.table hnd hmem2
      rw [hf] at hfind2
      have hpe : e = p.2 := by
        injection hfind2
      rw [← hpe] at hexp2
      omega
    rw [hexp]
    simp
    exact hf
  · intro u hf
    rw [hpost u]
    by_cases hx : expIn now (cmGetAll s).1 u = true
    · rw [hx]
      simp
    · rw [Bool.not_eq_true] at hx
      rw [hx]
      simpa using hf
  · have hc : clearExpiredQuotasCleared now s =
        (sweepGo now (cmGetAll s).1 (s, 0)).2 := rfl
    rw [hc, sweepGo_count]
    simp

/-- C9 counterexample: the claim says the sweep returns the count of
removed records, but the TypeScript `clearExpiredQuotas` returns
`void`: at a state holding one expired and one live record, the
removal count (computed internally and logged) is 1, while the value
the function returns is the unit value — not a number. -/
theorem sweep_returns_void :
    (clearExpiredQuotas 100
      { table := [("a", { data := { userId := "a", count := 3, resetAt := 50 },
                          lastModified := 0 }),
                  ("b", { data := { userId := "b", count := 2, resetAt := 200 },
                          lastModified := 0 })], dirty := false }).1 = () ∧
    clearExpiredQuotasCleared 100
      { table := [("a", { data := { userId := "a", count := 3, resetAt := 50 },
                          lastModified := 0 }),
                  ("b", { data := { userId := "b", count := 2, resetAt := 200 },
                          lastModified := 0 })], dirty := false } = 1 := by
  constructor
  · rfl
  · rfl

/-- Witness for C9's amended theorem at the same concrete state: the
expired record "a" is removed, the live record "b" keeps its exact
binding, and the internal counter is the number of expired records. -/
theorem sweep_expired_exact_witness :
    ((([("a", ({ data := { userId := "a", count := 3, resetAt := 50 },
                 lastModified := 0 } : CacheEntry UserQuotaRecord)),
        ("b", { data := { userId := "b", count := 2, resetAt := 200 },
                lastModified := 0 })]).map Prod.fst).Nodup) ∧
    mapFind? (clearExpiredQuotas 100
      { table := [("a", { data := { userId := "a", count := 3, resetAt := 50 },
                          lastModified := 0 }),
                  ("b", { data := { userId := "b", count := 2, resetAt := 200 },
                          lastModified := 0 })], dirty := false }).2.1.table "a" = none ∧
    mapFind? (clearExpiredQuotas 100
      { table := [("a", { data := { userId := "a", count := 3, resetAt := 50 },
                          lastModified := 0 }),
                  ("b", { data := { userId := "b", count := 2, resetAt := 200 },
                          lastModified := 0 })], dirty := false }).2.1.table "b" =
      some { data := { userId := "b", count := 2, resetAt := 200 }, lastModified := 0 } := by
  have h := sweep_expired_exact 100
    { table := [("a", { data := { userId := "a", count := 3, resetAt := 50 },
                        lastModified := 0 }),
                ("b", { data := { userId := "b", count := 2, resetAt := 200 },
                        lastModified := 0 })], dirty := false } (by decide)
  refine ⟨by decide, ?_, ?_⟩
  · exact h.2.1 "a" ⟨⟨"a", 3, 50⟩, 0⟩ (by decide) (by decide)
  · exact h.2.2.1 "b" ⟨⟨"b", 2, 200⟩, 0⟩ (by decide) (by decide)

/-! ### C8: history retention invariant -/

/-- Prepending the new record and truncating to the 10 most recent
preserves the retention invariant. -/
theorem history_trunc (record : SummaryRecord) (prior : List SummaryRecord)
    (hnf : newestFirst (record :: prior)) :
    (if (record :: prior).length > 10 then (record :: prior).take 10
     else record :: prior).length ≤ 10 ∧
    (if (record :: prior).length > 10 then (record :: prior).take 10
     else record :: prior).head? = some record ∧
    newestFirst (if (record :: prior).length > 10 then (record :: prior).take 10
     else record :: prior) ∧
    (prior.length = 10 →
      (if (record :: prior).length > 10 then (record :: prior).take 10
       else record :: prior) = record :: prior.take 9) := by
  by_cases hlen : (record :: prior).length > 10
  · rw [if_pos hlen]
    refine ⟨?_, ?_, ?_, fun h10 => ?_⟩
    · have := List.length_take 10 (record :: prior)
      omega
    · rw [show (10 : Nat) = 9 + 1 from rfl, List.take_succ_cons]
      rfl
    · exact List.Pairwise.sublist (List.take_sublist _ _) hnf
    · rw [show (10 : Nat) = 9 + 1 from rfl, List.take_succ_cons]
  · rw [if_neg hlen]
    refine ⟨?_, rfl, hnf, fun h10 => ?_⟩
    · simp only [List.length_cons] at hlen ⊢
      omega
    · exfalso
      simp only [List.length_cons, h10] at hlen
      omega

/-- C8: after every `addSummaryToHistory` call the user's stored list
holds at most 10 records, the new record sits at index 0, the
newest-first ordering is preserved (given it held before and the clock
is not behind any stored record), and when the list already held 10
records the positionally last — under the ordering hypothesis, the
oldest — record is the one evicted: the new list is the new record
followed by the first 9 old ones. -/
theorem history_invariant (disk : Except String (List UserHistory)) (newId : String)
    (now : Int) (store : HistStore) (userId summary : String)
    (keyPoints : List String) (originalText : String)
    (prior : List SummaryRecord)
    (hprior : prior = histOf (loadHistory disk store).1 userId)
    (hsorted : newestFirst prior)
    (htime : ∀ r ∈ prior, r.createdAt ≤ now) :
    (histOf (addSummaryToHistory disk newId now store userId summary keyPoints
        originalText).2.1 userId).length ≤ 10 ∧
    (histOf (addSummaryToHistory disk newId now store userId summary keyPoints
        originalText).2.1 userId).head? =
      some (addSummaryToHistory disk newId now store userId summary keyPoints
        originalText).1 ∧
    newestFirst (histOf (addSummaryToHistory disk newId now store userId summary
        keyPoints originalText).2.1 userId) ∧
    (prior.length = 10 →
      histOf (addSummaryToHistory disk newId now store userId summary keyPoints
          originalText).2.1 userId =
        (addSummaryToHistory disk newId now store userId summary keyPoints
          originalText).1 :: prior.take 9) := by
  have hrecres : (addSummaryToHistory disk newId now store userId summary keyPoints
      originalText).1 =
      { id := newId, userId := userId, summary := summary, keyPoints := keyPoints,
        originalText := originalText.take 200, createdAt := now } := rfl
  have hsum : histOf (addSummaryToHistory disk newId now store userId summary keyPoints
      originalText).2.1 userId =
      if (({ id := newId, userId := userId, summary := summary, keyPoints := keyPoints,
             originalText := originalText.take 200, createdAt := now } :
           SummaryRecord) :: prior).length > 10 then
        (({ id := newId, userId := userId, summary := summary, keyPoints := keyPoints,
            originalText := originalText.take 200, createdAt := now } :
          SummaryRecord) :: prior).take 10
      else
        ({ id := newId, userId := userId, summary := summary, keyPoints := keyPoints,
           originalText := originalText.take 200, createdAt := now } :
         SummaryRecord) :: prior := by
    rcases hm : mapFind? (loadHistory disk store).1 userId with _ | h
    · have hpr : prior = [] := by
        rw [hprior]
        simp [histOf, hm]
      simp only [addSummaryToHistory, histOf, hm, mapFind?_set_self, hpr]
    · have hpr : prior = h.summaries := by
        rw [hprior]
        simp [histOf, hm]
      simp only [addSummaryToHistory, histOf, hm, mapFind?_set_self, hpr]
  have hnf : newestFirst
      (({ id := newId, userId := userId, summary := summary, keyPoints := keyPoints,
          originalText := originalText.take 200, createdAt := now } :
        SummaryRecord) :: prior) := by
    rw [newestFirst, List.pairwise_cons]
    exact ⟨fun b hb => htime b hb, hsorted⟩
  rw [hrecres, hsum]
  exact history_trunc _ prior hnf

/-- Witness for C8 at concrete inputs: a user already holding 10
records (newest-first, timestamps 10 down to 1) gains an 11th at time
100; afterwards the list still holds 10 records, the new record heads
it, and the oldest record (timestamp 1) was the one evicted. -/
theorem history_invariant_witness :
    ([⟨"1", "u", "", [], "", 10⟩, ⟨"2", "u", "", [], "", 9⟩, ⟨"3", "u", "", [], "", 8⟩, ⟨"4", "u", "", [], "", 7⟩, ⟨"5", "u", "", [], "", 6⟩, ⟨"6", "u", "", [], "", 5⟩, ⟨"7", "u", "", [], "", 4⟩, ⟨"8", "u", "", [], "", 3⟩, ⟨"9", "u", "", [], "", 2⟩, ⟨"10", "u", "", [], "", 1⟩] : List SummaryRecord) =
      histOf (loadHistory (.error "e") [("u", ⟨"u", [⟨"1", "u", "", [], "", 10⟩, ⟨"2", "u", "", [], "", 9⟩, ⟨"3", "u", "", [], "", 8⟩, ⟨"4", "u", "", [], "", 7⟩, ⟨"5", "u", "", [], "", 6⟩, ⟨"6", "u", "", [], "", 5⟩, ⟨"7", "u", "", [], "", 4⟩, ⟨"8", "u", "", [], "", 3⟩, ⟨"9", "u", "", [], "", 2⟩, ⟨"10", "u", "", [], "", 1⟩], 0⟩)]).1 "u" ∧
    newestFirst ([⟨"1", "u", "", [], "", 10⟩, ⟨"2", "u", "", [], "", 9⟩, ⟨"3", "u", "", [], "", 8⟩, ⟨"4", "u", "", [], "", 7⟩, ⟨"5", "u", "", [], "", 6⟩, ⟨"6", "u", "", [], "", 5⟩, ⟨"7", "u", "", [], "", 4⟩, ⟨"8", "u", "", [], "", 3⟩, ⟨"9", "u", "", [], "", 2⟩, ⟨"10", "u", "", [], "", 1⟩] : List SummaryRecord) ∧
    (∀ r ∈ ([⟨"1", "u", "", [], "", 10⟩, ⟨"2", "u", "", [], "", 9⟩, ⟨"3", "u", "", [], "", 8⟩, ⟨"4", "u", "", [], "", 7⟩, ⟨"5", "u", "", [], "", 6⟩, ⟨"6", "u", "", [], "", 5⟩, ⟨"7", "u", "", [], "", 4⟩, ⟨"8", "u", "", [], "", 3⟩, ⟨"9", "u", "", [], "", 2⟩, ⟨"10", "u", "", [], "", 1⟩] : List SummaryRecord), r.createdAt ≤ 100) ∧
    (histOf (addSummaryToHistory (.error "e") "new" 100 [("u", ⟨"u", [⟨"1", "u", "", [], "", 10⟩, ⟨"2", "u", "", [], "", 9⟩, ⟨"3", "u", "", [], "", 8⟩, ⟨"4", "u", "", [], "", 7⟩, ⟨"5", "u", "", [], "", 6⟩, ⟨"6", "u", "", [], "", 5⟩, ⟨"7", "u", "", [], "", 4⟩, ⟨"8", "u", "", [], "", 3⟩, ⟨"9", "u", "", [], "", 2⟩, ⟨"10", "u", "", [], "", 1⟩], 0⟩)] "u" "" [] "").2.1 "u").length ≤ 10 ∧
    (histOf (addSummaryToHistory (.error "e") "new" 100 [("u", ⟨"u", [⟨"1", "u", "", [], "", 10⟩, ⟨"2", "u", "", [], "", 9⟩, ⟨"3", "u", "", [], "", 8⟩, ⟨"4", "u", "", [], "", 7⟩, ⟨"5", "u", "", [], "", 6⟩, ⟨"6", "u", "", [], "", 5⟩, ⟨"7", "u", "", [], "", 4⟩, ⟨"8", "u", "", [], "", 3⟩, ⟨"9", "u", "", [], "", 2⟩, ⟨"10", "u", "", [], "", 1⟩], 0⟩)] "u" "" [] "").2.1 "u").head? = some (addSummaryToHistory (.error "e") "new" 100 [("u", ⟨"u", [⟨"1", "u", "", [], "", 10⟩, ⟨"2", "u", "", [], "", 9⟩, ⟨"3", "u", "", [], "", 8⟩, ⟨"4", "u", "", [], "", 7⟩, ⟨"5", "u", "", [], "", 6⟩, ⟨"6", "u", "", [], "", 5⟩, ⟨"7", "u", "", [], "", 4⟩, ⟨"8", "u", "", [], "", 3⟩, ⟨"9", "u", "", [], "", 2⟩, ⟨"10", "u", "", [], "", 1⟩], 0⟩)] "u" "" [] "").1 ∧
    ((([⟨"1", "u", "", [], "", 10⟩, ⟨"2", "u", "", [], "", 9⟩, ⟨"3", "u", "", [], "", 8⟩, ⟨"4", "u", "", [], "", 7⟩, ⟨"5", "u", "", [], "", 6⟩, ⟨"6", "u", "", [], "", 5⟩, ⟨"7", "u", "", [], "", 4⟩, ⟨"8", "u", "", [], "", 3⟩, ⟨"9", "u", "", [], "", 2⟩, ⟨"10", "u", "", [], "", 1⟩] : List SummaryRecord)).length = 10 →
      histOf (addSummaryToHistory (.error "e") "new" 100 [("u", ⟨"u", [⟨"1", "u", "", [], "", 10⟩, ⟨"2", "u", "", [], "", 9⟩, ⟨"3", "u", "", [], "", 8⟩, ⟨"4", "u", "", [], "", 7⟩, ⟨"5", "u", "", [], "", 6⟩, ⟨"6", "u", "", [], "", 5⟩, ⟨"7", "u", "", [], "", 4⟩, ⟨"8", "u", "", [], "", 3⟩, ⟨"9", "u", "", [], "", 2⟩, ⟨"10", "u", "", [], "", 1⟩], 0⟩)] "u" "" [] "").2.1 "u" = (addSummaryToHistory (.error "e") "new" 100 [("u", ⟨"u", [⟨"1", "u", "", [], "", 10⟩, ⟨"2", "u", "", [], "", 9⟩, ⟨"3", "u", "", [], "", 8⟩, ⟨"4", "u", "", [], "", 7⟩, ⟨"5", "u", "", [], "", 6⟩, ⟨"6", "u", "", [], "", 5⟩, ⟨"7", "u", "", [], "", 4⟩, ⟨"8", "u", "", [], "", 3⟩, ⟨"9", "u", "", [], "", 2⟩, ⟨"10", "u", "", [], "", 1⟩], 0⟩)] "u" "" [] "").1 :: (([⟨"1", "u", "", [], "", 10⟩, ⟨"2", "u", "", [], "", 9⟩, ⟨"3", "u", "", [], "", 8⟩, ⟨"4", "u", "", [], "", 7⟩, ⟨"5", "u", "", [], "", 6⟩, ⟨"6", "u", "", [], "", 5⟩, ⟨"7", "u", "", [], "", 4⟩, ⟨"8", "u", "", [], "", 3⟩, ⟨"9", "u", "", [], "", 2⟩, ⟨"10", "u", "", [], "", 1⟩] : List SummaryRecord)).take 9) := by
  have hprior : ([⟨"1", "u", "", [], "", 10⟩, ⟨"2", "u", "", [], "", 9⟩, ⟨"3", "u", "", [], "", 8⟩, ⟨"4", "u", "", [], "", 7⟩, ⟨"5", "u", "", [], "", 6⟩, ⟨"6", "u", "", [], "", 5⟩, ⟨"7", "u", "", [], "", 4⟩, ⟨"8", "u", "", [], "", 3⟩, ⟨"9", "u", "", [], "", 2⟩, ⟨"10", "u", "", [], "", 1⟩] : List SummaryRecord) =
      histOf (loadHistory (.error "e") [("u", ⟨"u", [⟨"1", "u", "", [], "", 10⟩, ⟨"2", "u", "", [], "", 9⟩, ⟨"3", "u", "", [], "", 8⟩, ⟨"4", "u", "", [], "", 7⟩, ⟨"5", "u", "", [], "", 6⟩, ⟨"6", "u", "", [], "", 5⟩, ⟨"7", "u", "", [], "", 4⟩, ⟨"8", "u", "", [], "", 3⟩, ⟨"9", "u", "", [], "", 2⟩, ⟨"10", "u", "", [], "", 1⟩], 0⟩)]).1 "u" := by decide
  have hsorted : newestFirst ([⟨"1", "u", "", [], "", 10⟩, ⟨"2", "u", "", [], "", 9⟩, ⟨"3", "u", "", [], "", 8⟩, ⟨"4", "u", "", [], "", 7⟩, ⟨"5", "u", "", [], "", 6⟩, ⟨"6", "u", "", [], "", 5⟩, ⟨"7", "u", "", [], "", 4⟩, ⟨"8", "u", "", [], "", 3⟩, ⟨"9", "u", "", [], "", 2⟩, ⟨"10", "u", "", [], "", 1⟩] : List SummaryRecord) := by
    rw [newestFirst]
    decide
  have htime : ∀ r ∈ ([⟨"1", "u", "", [], "", 10⟩, ⟨"2", "u", "", [], "", 9⟩, ⟨"3", "u", "", [], "", 8⟩, ⟨"4", "u", "", [], "", 7⟩, ⟨"5", "u", "", [], "", 6⟩, ⟨"6", "u", "", [], "", 5⟩, ⟨"7", "u", "", [], "", 4⟩, ⟨"8", "u", "", [], "", 3⟩, ⟨"9", "u", "", [], "", 2⟩, ⟨"10", "u", "", [], "", 1⟩] : List SummaryRecord), r.createdAt ≤ 100 := by decide
  have h := history_invariant (.error "e") "new" 100 [("u", ⟨"u", [⟨"1", "u", "", [], "", 10⟩, ⟨"2", "u", "", [], "", 9⟩, ⟨"3", "u", "", [], "", 8⟩, ⟨"4", "u", "", [], "", 7⟩, ⟨"5", "u", "", [], "", 6⟩, ⟨"6", "u", "", [], "", 5⟩, ⟨"7", "u", "", [], "", 4⟩, ⟨"8", "u", "", [], "", 3⟩, ⟨"9", "u", "", [], "", 2⟩, ⟨"10", "u", "", [], "", 1⟩], 0⟩)] "u" "" [] ""
    [⟨"1", "u", "", [], "", 10⟩, ⟨"2", "u", "", [], "", 9⟩, ⟨"3", "u", "", [], "", 8⟩, ⟨"4", "u", "", [], "", 7⟩, ⟨"5", "u", "", [], "", 6⟩, ⟨"6", "u", "", [], "", 5⟩, ⟨"7", "u", "", [], "", 4⟩, ⟨"8", "u", "", [], "", 3⟩, ⟨"9", "u", "", [], "", 2⟩, ⟨"10", "u", "", [], "", 1⟩] hprior hsorted htime
  exact ⟨hprior, hsorted, htime, h.1, h.2.1, h.2.2.2⟩

/-! ### C1: dedup coalescing under interleavings -/

/-- One step preserves "B is coalesced onto A's promise", and no such
step is an upstream invocation by B. -/
theorem goodB_preserved (pA : Nat) (outcomeOf : Nat → Outcome) (s s2 : CSys) (e : Ev)
    (hstep : CStep pA outcomeOf s e s2) (hgood : goodB pA outcomeOf s.bPhase) :
    goodB pA outcomeOf s2.bPhase ∧ (∀ p, e ≠ Ev.registerInvokeB p) := by
  cases hstep with
  | lookupB h =>
      rw [h] at hgood
      simp [goodB] at hgood
  | joinB p h =>
      rw [h] at hgood
      simp only [goodB, Option.some.injEq] at hgood
      subst hgood
      exact ⟨⟨rfl, rfl⟩, by simp⟩
  | registerInvokeB p h =>
      rw [h] at hgood
      simp [goodB] at hgood
  | settleA h =>
      exact ⟨hgood, by simp⟩
  | settleB h hb =>
      exact ⟨hgood, by simp⟩
  | observeA h h2 =>
      exact ⟨hgood, by simp⟩
  | observeB p inv h hs =>
      rw [h] at hgood
      obtain ⟨hp, hinv⟩ := hgood
      subst hp
      subst hinv
      exact ⟨⟨rfl, rfl, rfl⟩, by simp⟩

/-- Along any run from a coalesced state, B stays coalesced and never
invokes the upstream computation. -/
theorem goodB_run (pA : Nat) (outcomeOf : Nat → Outcome) (tr : List Ev) :
    ∀ (s s2 : CSys), CRun pA outcomeOf s tr s2 → goodB pA outcomeOf s.bPhase →
      goodB pA outcomeOf s2.bPhase ∧ countInvokes tr = 0 := by
  induction tr with
  | nil =>
      intro s s2 hrun hg
      cases hrun
      exact ⟨hg, rfl⟩
  | cons e tr ih =>
      intro s s2 hrun hg
      cases hrun with
      | cons _ s1 _ _ _ hstep hrest =>
          have h1 := goodB_preserved pA outcomeOf s s1 e hstep hg
          have h2 := ih s1 s2 hrest h1.1
          refine ⟨h2.1, ?_⟩
          cases e with
          | registerInvokeB p => exact absurd rfl (h1.2 p)
          | lookupB r => simpa [countInvokes, List.countP_cons] using h2.2
          | joinB p => simpa [countInvokes, List.countP_cons] using h2.2
          | settleA => simpa [countInvokes, List.countP_cons] using h2.2
          | settleB => simpa [countInvokes, List.countP_cons] using h2.2
          | observeA o => simpa [countInvokes, List.countP_cons] using h2.2
          | observeB o => simpa [countInvokes, List.countP_cons] using h2.2

/-- A only ever observes the fixed outcome of its own promise. -/
theorem aObserved_run (pA : Nat) (outcomeOf : Nat → Outcome) (tr : List Ev) :
    ∀ (s s2 : CSys), CRun pA outcomeOf s tr s2 →
      (s.aObserved = none ∨ s.aObserved = some (outcomeOf pA)) →
      (s2.aObserved = none ∨ s2.aObserved = some (outcomeOf pA)) := by
  induction tr with
  | nil =>
      intro s s2 hrun hA
      cases hrun
      exact hA
  | cons e tr ih =>
      intro s s2 hrun hA
      cases hrun with
      | cons _ s1 _ _ _ hstep hrest =>
          refine ih s1 s2 hrest ?_
          cases hstep with
          | lookupB h => exact hA
          | joinB p h => exact hA
          | registerInvokeB p h => exact hA
          | settleA h => exact hA
          | settleB h hb => exact hA
          | observeA h h2 => exact Or.inr rfl
          | observeB p inv h hs => exact hA

/-- C1: from the claim's scenario — caller A has registered its
upstream promise `pA` for the fingerprint, and caller B queries
`getInflightRequest` before that promise settles — every interleaving
in which both callers finish has B joining A's promise: caller B never
performs an upstream invocation (so with A's single pre-registration
invocation, exactly one upstream invocation occurs in total), and both
callers observe the same eventual settlement outcome `outcomeOf pA`,
success or failure. -/
theorem dedup_coalescing (pA : Nat) (outcomeOf : Nat → Outcome) (tr : List Ev)
    (s2 : CSys)
    (hrun : CRun pA outcomeOf (initCoalesce pA) tr s2)
    (horder : lookupPrecedesSettle tr = true)
    (hAdone : s2.aObserved.isSome = true)
    (hBdone : ∃ o p i, s2.bPhase = BPhase.done o p i) :
    s2.aObserved = some (outcomeOf pA) ∧
    s2.bPhase = BPhase.done (outcomeOf pA) pA false ∧
    countInvokes tr = 0 := by
  cases hrun with
  | nil =>
      obtain ⟨o, p, i, hb⟩ := hBdone
      simp [initCoalesce] at hb
  | cons _ s1 _ e tr hstep hrest =>
      cases hstep with
      | lookupB h =>
          have hrunres := goodB_run pA outcomeOf tr _ s2 hrest
            (by simp [goodB, initCoalesce])
          have hAres := aObserved_run pA outcomeOf tr _ s2 hrest (Or.inl rfl)
          obtain ⟨o, p, i, hb⟩ := hBdone
          have hgf := hrunres.1
          rw [hb] at hgf
          obtain ⟨hp, hi, ho⟩ := hgf
          subst hp
          subst hi
          subst ho
          refine ⟨?_, hb, ?_⟩
          · cases hAres with
            | inl hn =>
                rw [hn] at hAdone
                simp at hAdone
            | inr hsome => exact hsome
          · have hc := hrunres.2
            simpa [countInvokes, List.countP_cons] using hc
      | joinB p h => simp [initCoalesce] at h
      | registerInvokeB p h => simp [initCoalesce] at h
      | settleA h => simp [lookupPrecedesSettle] at horder
      | settleB h hb => simp [initCoalesce, bInvoked] at hb
      | observeA h h2 => simp [initCoalesce] at h
      | observeB p inv h hs => simp [initCoalesce] at h

/-- Witness for C1 at a concrete interleaving: promise 0 is already
registered by A; B queries (a hit), joins A's promise, the promise
settles, and both callers observe the same successful result with no
further upstream invocation. -/
theorem dedup_coalescing_witness :
    CRun 0 (fun _ => Outcome.ok ⟨"s", [], 0⟩) (initCoalesce 0)
      [Ev.lookupB (some 0), Ev.joinB 0, Ev.settleA,
       Ev.observeA (Outcome.ok ⟨"s", [], 0⟩), Ev.observeB (Outcome.ok ⟨"s", [], 0⟩)]
      { cache := none, settledA := true, settledB := false,
        bPhase := BPhase.done (Outcome.ok ⟨"s", [], 0⟩) 0 false,
        aObserved := some (Outcome.ok ⟨"s", [], 0⟩) } ∧
    lookupPrecedesSettle
      [Ev.lookupB (some 0), Ev.joinB 0, Ev.settleA,
       Ev.observeA (Outcome.ok ⟨"s", [], 0⟩), Ev.observeB (Outcome.ok ⟨"s", [], 0⟩)] = true ∧
    ({ cache := none, settledA := true, settledB := false,
        bPhase := BPhase.done (Outcome.ok ⟨"s", [], 0⟩) 0 false,
        aObserved := some (Outcome.ok ⟨"s", [], 0⟩) } : CSys).aObserved =
      some ((fun _ => Outcome.ok ⟨"s", [], 0⟩ : Nat → Outcome) 0) ∧
    countInvokes
      [Ev.lookupB (some 0), Ev.joinB 0, Ev.settleA,
       Ev.observeA (Outcome.ok ⟨"s", [], 0⟩), Ev.observeB (Outcome.ok ⟨"s", [], 0⟩)] = 0 := by
  have hrun : CRun 0 (fun _ => Outcome.ok ⟨"s", [], 0⟩) (initCoalesce 0)
      [Ev.lookupB (some 0), Ev.joinB 0, Ev.settleA,
       Ev.observeA (Outcome.ok ⟨"s", [], 0⟩), Ev.observeB (Outcome.ok ⟨"s", [], 0⟩)]
      { cache := none, settledA := true, settledB := false,
        bPhase := BPhase.done (Outcome.ok ⟨"s", [], 0⟩) 0 false,
        aObserved := some (Outcome.ok ⟨"s", [], 0⟩) } := by
    refine CRun.cons _ _ _ _ _ (CStep.lookupB _ rfl) ?_
    refine CRun.cons _ _ _ _ _ (CStep.joinB _ 0 rfl) ?_
    refine CRun.cons _ _ _ _ _ (CStep.settleA _ rfl) ?_
    refine CRun.cons _ _ _ _ _ (CStep.observeA _ rfl rfl) ?_
    refine CRun.cons _ _ _ _ _ (CStep.observeB _ 0 false rfl rfl) ?_
    exact CRun.nil _
  have h := dedup_coalescing 0 (fun _ => Outcome.ok ⟨"s", [], 0⟩) _ _ hrun rfl rfl
    ⟨Outcome.ok ⟨"s", [], 0⟩, 0, false, rfl⟩
  exact ⟨hrun, rfl, h.1, h.2.2⟩

end Summarizeit

